import Mathlib

/-!
Verification of the pattern-matching / resilient-client core of the
`ralph-smart` repository (files `scripts/pattern_matcher.py` and
`scripts/solodit_client.py`), as a shallow embedding in Lean 4.

Modelling conventions:
* Python floats are modelled as rationals (`ℚ`); all constants involved
  (0.35, 0.30, 0.15, 0.10, 0.5, timestamps) are exactly representable,
  so no float-rounding behaviour is relevant to the verified claims.
* Python dicts that preserve insertion order are modelled as ordered
  association lists.
* Network effects are parameterised: the sequence of per-attempt HTTP
  outcomes is an explicit input of the retry-loop model, and the sleeps
  the code would perform are collected in an output list.
-/

namespace RalphSmart

/-- Python's `pat in hay` substring test on lists of characters:
`pat` occurs contiguously inside `hay`. -/
def isSubListOf (pat : List Char) : List Char → Bool
  | [] => pat.isEmpty
  | h :: t => pat.isPrefixOf (h :: t) || isSubListOf pat t

/-- Python's `pat in hay` substring test on strings. -/
def strIn (pat hay : String) : Bool := isSubListOf pat.data hay.data

/-- Python's `str.lower()` (ASCII case folding, which covers every string
the source manipulates). -/
def pyLower (s : String) : String := String.mk (s.data.map Char.toLower)

/-- Python's `list(dict.fromkeys(xs))` / seen-set loop: remove duplicates
keeping the first occurrence. `seen` is the accumulator of already-kept
elements. -/
def dedupFirstAux {α : Type} [DecidableEq α] (seen : List α) : List α → List α
  | [] => []
  | h :: t => if h ∈ seen then dedupFirstAux seen t else h :: dedupFirstAux (h :: seen) t

/-- De-duplication keeping first occurrences (Python `dict.fromkeys` order). -/
def dedupFirst {α : Type} [DecidableEq α] (l : List α) : List α := dedupFirstAux [] l

/-- One row of `PatternMatcher.VULNERABILITY_PATTERNS`
(`scripts/pattern_matcher.py`, lines 37-113). -/
structure VulnPattern where
  name : String
  tags : List String
  keywords : List String
  severity : String
deriving DecidableEq

/-- `PatternMatcher.VULNERABILITY_PATTERNS` from `scripts/pattern_matcher.py`,
in the source's (insertion-order-preserving) dict order. -/
def VULNERABILITY_PATTERNS : List VulnPattern := [
  ⟨"reentrancy", ["Reentrancy", "CEI", "External Call"],
    ["reentrancy", "re-entrancy", "callback", "external call", "receive()"], "HIGH"⟩,
  ⟨"access_control", ["Access Control", "Authentication", "Admin", "Authorization"],
    ["access control", "onlyowner", "auth", "permission", "unauthorized"], "CRITICAL"⟩,
  ⟨"oracle", ["Oracle", "Price Manipulation", "TWAP", "Price Feed"],
    ["oracle", "price", "manipulation", "spot price", "chainlink"], "HIGH"⟩,
  ⟨"flash_loan", ["Flash Loan", "Price Manipulation"],
    ["flash loan", "flashloan", "atomic"], "HIGH"⟩,
  ⟨"rounding", ["Rounding", "Precision", "Decimals", "Division"],
    ["rounding", "precision", "division before", "decimals"], "MEDIUM"⟩,
  ⟨"overflow", ["Overflow", "Underflow", "SafeMath"],
    ["overflow", "underflow", "safemath", "unchecked"], "HIGH"⟩,
  ⟨"delegatecall", ["Delegatecall", "Proxy", "DELEGATECALL"],
    ["delegatecall", "delegate call", "proxy"], "CRITICAL"⟩,
  ⟨"signature", ["Signature", "ECDSA", "EIP-712", "ecrecover"],
    ["signature", "ecdsa", "ecrecover", "replay"], "HIGH"⟩,
  ⟨"frontrunning", ["Frontrunning", "MEV", "Sandwich"],
    ["frontrun", "mev", "sandwich", "front-run"], "MEDIUM"⟩,
  ⟨"dos", ["DOS", "Gas Limit", "Denial-Of-Service", "DoS"],
    ["dos", "denial", "gas limit", "unbounded loop"], "MEDIUM"⟩,
  ⟨"timestamp", ["Timestamp", "block.timestamp", "Time"],
    ["timestamp", "block.timestamp", "time manipulation"], "MEDIUM"⟩,
  ⟨"randomness", ["Randomness", "Cryptography", "Predictable"],
    ["random", "predictable", "blockhash", "weak randomness"], "HIGH"⟩,
  ⟨"approval", ["Approve", "Allowance", "ERC20"],
    ["approve", "allowance", "approve max"], "MEDIUM"⟩,
  ⟨"collateral", ["Collateral", "Liquidation", "Lending"],
    ["collateral", "liquidation", "lending", "borrow"], "HIGH"⟩,
  ⟨"governance", ["Governance", "Voting", "Timelock", "Proposal"],
    ["governance", "voting", "proposal", "timelock"], "HIGH"⟩]

/-- Whether one of the class's keywords occurs (case-insensitively) in the
already-lowered text: the inner `for keyword ... break` loop of
`PatternMatcher._infer_tags`. -/
def patternMatches (text : String) (p : VulnPattern) : Bool :=
  p.keywords.any (fun kw => strIn (pyLower kw) text)

/-- `PatternMatcher._infer_tags` (`scripts/pattern_matcher.py`, lines 192-215):
lower the concatenated description and code excerpt, collect each matching
class's tag list once (in table order), de-duplicate keeping first
occurrence, keep at most 5 tags. -/
def infer_tags (description : String) (code_snippet : Option String) : List String :=
  let text := pyLower (description ++ " " ++ code_snippet.getD "")
  let tags := VULNERABILITY_PATTERNS.foldl
    (fun acc p => if patternMatches text p then acc ++ p.tags else acc) []
  (dedupFirst tags).take 5

/-- `\w` of the source's regexes (ASCII word character). -/
def isWordChar (c : Char) : Bool := c.isAlphanum || c = '_'

/-- Attempt to match the regex `function\s+(\w+)` at the head of `l`,
returning the captured group and the remaining characters. -/
def funcNameAt (l : List Char) : Option (String × List Char) :=
  let pfx := ['f', 'u', 'n', 'c', 't', 'i', 'o', 'n']
  if pfx.isPrefixOf l then
    let after := l.drop 8
    let sp := after.takeWhile Char.isWhitespace
    if sp.isEmpty then none
    else
      let after2 := after.dropWhile Char.isWhitespace
      let w := after2.takeWhile isWordChar
      if w.isEmpty then none
      else some (String.mk w, after2.dropWhile isWordChar)
  else none

/-- `re.findall(r"function\s+(\w+)", text)`: scan left to right, taking
non-overlapping matches and collecting the captured function names.
`fuel` bounds the scan; every step consumes at least one character, so
`fuel = length of the text` is always enough. -/
def findallFunc : Nat → List Char → List String
  | 0, _ => []
  | _ + 1, [] => []
  | fuel + 1, h :: t =>
    match funcNameAt (h :: t) with
    | some (nm, rest) => nm :: findallFunc fuel rest
    | none => findallFunc fuel t

/-- `re.findall` for a regex that is a literal string with no groups:
returns one copy of the literal per non-overlapping occurrence. -/
def findallLit (pat : List Char) : Nat → List Char → List String
  | 0, _ => []
  | _ + 1, [] => []
  | fuel + 1, h :: t =>
    if pat.isPrefixOf (h :: t) then
      String.mk pat :: findallLit pat fuel ((h :: t).drop pat.length)
    else findallLit pat fuel t

/-- The four literal members of `solidity_patterns` in
`PatternMatcher._extract_keywords` (the escaped regexes `\.call{value:`,
`delegatecall`, `transfer\(`, `require\(` are plain string literals). -/
def solidityLiterals : List (List Char) :=
  [".call\x7bvalue:".data, "delegatecall".data, "transfer(".data, "require(".data]

/-- `PatternMatcher._extract_keywords` (`scripts/pattern_matcher.py`,
lines 217-242): collect every table keyword occurring (case-insensitively)
in the text, then the regex matches of the `solidity_patterns` list over the
original-case text, and de-duplicate keeping first occurrences. -/
def extract_keywords (text : String) : List String :=
  let textLower := pyLower text
  let kws :=
    VULNERABILITY_PATTERNS.foldl
      (fun acc p => acc ++ p.keywords.filter (fun kw => strIn (pyLower kw) textLower)) []
  let chars := text.data
  let kws2 := findallFunc chars.length chars
  let kws3 := solidityLiterals.foldl (fun acc pat => acc ++ findallLit pat chars.length chars) []
  dedupFirst (kws ++ kws2 ++ kws3)

lemma dedupFirstAux_nodup {α : Type} [DecidableEq α] (seen : List α) (l : List α) :
    (dedupFirstAux seen l).Nodup ∧ ∀ a ∈ dedupFirstAux seen l, a ∉ seen := by
  induction l generalizing seen with
  | nil => simp [dedupFirstAux]
  | cons h t ih =>
    by_cases hh : h ∈ seen
    · simpa [dedupFirstAux, hh] using ih seen
    · have iht := ih (h :: seen)
      refine ⟨?_, ?_⟩
      · simp only [dedupFirstAux, hh, if_false]
        refine List.nodup_cons.mpr ⟨fun hmem => ?_, iht.1⟩
        exact (iht.2 h hmem) (by simp)
      · intro a ha
        simp only [dedupFirstAux, hh, if_false, List.mem_cons] at ha
        rcases ha with rfl | ha
        · exact hh
        · exact fun hs => (iht.2 a ha) (by simp [hs])

lemma dedupFirst_nodup {α : Type} [DecidableEq α] (l : List α) : (dedupFirst l).Nodup :=
  (dedupFirstAux_nodup [] l).1

lemma foldl_filter_tags (m : VulnPattern → Bool) (ps : List VulnPattern) :
    ∀ acc : List String,
      ps.foldl (fun acc p => if m p then acc ++ p.tags else acc) acc
        = acc ++ (ps.filter m).flatMap VulnPattern.tags := by
  induction ps with
  | nil => intro acc; simp
  | cons p ps ih =>
    intro acc
    by_cases hp : m p <;> simp [hp, ih, List.filter_cons]

/-- C8: for every description and optional code excerpt, the inferred tag
list is duplicate-free, has at most 5 tags, and equals the table-ordered
concatenation of the tag sets of the matched vulnerability classes (each
class contributing at most once), de-duplicated keeping first occurrences
and truncated to 5. -/
theorem claim8_infer_tags_shape (d : String) (cs : Option String) :
    (infer_tags d cs).Nodup ∧ (infer_tags d cs).length ≤ 5 ∧
    infer_tags d cs =
      (dedupFirst ((VULNERABILITY_PATTERNS.filter
        (patternMatches (pyLower (d ++ " " ++ cs.getD "")))).flatMap
          VulnPattern.tags)).take 5 := by
  have heq : infer_tags d cs =
      (dedupFirst ((VULNERABILITY_PATTERNS.filter
        (patternMatches (pyLower (d ++ " " ++ cs.getD "")))).flatMap
          VulnPattern.tags)).take 5 := by
    simp only [infer_tags, foldl_filter_tags, List.nil_append]
  refine ⟨?_, ?_, heq⟩
  · exact heq ▸ (List.take_sublist 5 _).nodup (dedupFirst_nodup _)
  · exact heq ▸ (by simp)

/-- The `impact` literal type of `SoloditFinding`
(`scripts/solodit_client.py`, line 46). -/
inductive Impact
  | HIGH
  | MEDIUM
  | LOW
  | GAS
deriving DecidableEq

/-- `SoloditFinding` (`scripts/solodit_client.py`, lines 38-55). Scores are
floats in the source; they are modelled as rationals. -/
structure SoloditFinding where
  id : String
  slug : String
  title : String
  content : String
  summary : Option String
  impact : Impact
  quality_score : ℚ
  rarity_score : ℚ
  report_date : Option String
  firm_name : Option String
  protocol_name : Option String
  finders_count : Nat
  source_link : Option String
  tags : List String
  finders : List String
deriving DecidableEq

/-- `SoloditFinding.severity_int` (`scripts/solodit_client.py`, lines 57-60):
the dict lookup `{"HIGH": 3, "MEDIUM": 2, "LOW": 1, "GAS": 0}` (the `.get`
default 0 is unreachable because `impact` is the closed enum). -/
def severity_int (f : SoloditFinding) : Nat :=
  match f.impact with
  | .HIGH => 3
  | .MEDIUM => 2
  | .LOW => 1
  | .GAS => 0

/-- `protocol_indicators` of `PatternMatcher._calculate_relevance`
(`scripts/pattern_matcher.py`, line 277). -/
def protocol_indicators : List String := ["defi", "nft", "lending", "dex", "yield", "staking"]

set_option linter.unusedVariables false in
/-- `PatternMatcher._calculate_relevance` (`scripts/pattern_matcher.py`,
lines 244-290), returning the score. The accompanying `reasons` list is not
modelled: no verified property depends on it and one of its entries
interpolates a Python `set` in unspecified iteration order. `code_snippet`
is accepted and ignored exactly as in the source. -/
def calculate_relevance (finding : SoloditFinding) (description : String)
    (code_snippet : Option String) (query_tags : List String) : ℚ :=
  let descLower := pyLower description
  let contentLower := pyLower finding.content
  let queryKeywords := extract_keywords description
  let matchingKeywords := queryKeywords.filter (fun k => strIn (pyLower k) contentLower)
  let score1 : ℚ :=
    if matchingKeywords ≠ [] ∧ queryKeywords ≠ [] then
      (matchingKeywords.length : ℚ) / (queryKeywords.length : ℚ) * (35 / 100)
    else 0
  let score2 : ℚ :=
    if query_tags ≠ [] ∧ finding.tags ≠ [] then
      let matchingTags := (query_tags.map pyLower).toFinset ∩ (finding.tags.map pyLower).toFinset
      if matchingTags ≠ ∅ then
        (matchingTags.card : ℚ) / (query_tags.length : ℚ) * (30 / 100)
      else 0
    else 0
  let score3 : ℚ :=
    if protocol_indicators.any (fun ind =>
        strIn ind descLower && strIn ind (pyLower (finding.protocol_name.getD ""))) then
      15 / 100
    else 0
  let score4 : ℚ := finding.quality_score / 5 * (10 / 100)
  let score5 : ℚ := finding.rarity_score / 5 * (10 / 100)
  min (score1 + score2 + score3 + score4 + score5) 1

/-- The query keywords extracted from the description that occur
case-insensitively in the finding's content (`matching_keywords` in
`_calculate_relevance`). -/
def matched_query_keywords (description : String) (f : SoloditFinding) : List String :=
  (extract_keywords description).filter (fun k => strIn (pyLower k) (pyLower f.content))

/-- Keyword-overlap component as the spec describes it:
`|matching| / |query keywords| * 0.35`. -/
def keywordComponent (f : SoloditFinding) (description : String) : ℚ :=
  ((matched_query_keywords description f).length : ℚ)
    / ((extract_keywords description).length : ℚ) * (35 / 100)

/-- Tag-overlap component as the spec describes it:
`|lower-cased tag intersection| / |query tags| * 0.30`. -/
def tagComponent (f : SoloditFinding) (query_tags : List String) : ℚ :=
  (((query_tags.map pyLower).toFinset ∩ (f.tags.map pyLower).toFinset).card : ℚ)
    / (query_tags.length : ℚ) * (30 / 100)

/-- Protocol-type component as the spec describes it: 0.15 when an
indicator word occurs in both the description and the protocol name. -/
def protocolComponent (f : SoloditFinding) (description : String) : ℚ :=
  if protocol_indicators.any (fun ind =>
      strIn ind (pyLower description) && strIn ind (pyLower (f.protocol_name.getD ""))) then
    15 / 100
  else 0

/-- Quality bonus: `quality_score / 5 * 0.10`. -/
def qualityBonus (f : SoloditFinding) : ℚ := f.quality_score / 5 * (10 / 100)

/-- Rarity bonus: `rarity_score / 5 * 0.10`. -/
def rarityBonus (f : SoloditFinding) : ℚ := f.rarity_score / 5 * (10 / 100)

lemma guard_ratio_eq {α : Type} [DecidableEq α] (Q : List α) (p : α → Bool) (c : ℚ) :
    (if Q.filter p ≠ [] ∧ Q ≠ [] then ((Q.filter p).length : ℚ) / (Q.length : ℚ) * c else 0)
      = ((Q.filter p).length : ℚ) / (Q.length : ℚ) * c := by
  split_ifs with h
  · rfl
  · rcases not_and_or.mp h with h | h
    · rw [not_ne_iff.mp h]
      simp
    · rw [not_ne_iff.mp h]
      simp

lemma guard_tag_eq (qt tags : List String) :
    (if qt ≠ [] ∧ tags ≠ [] then
       (if ((qt.map pyLower).toFinset ∩ (tags.map pyLower).toFinset) ≠ ∅ then
          (((qt.map pyLower).toFinset ∩ (tags.map pyLower).toFinset).card : ℚ)
            / (qt.length : ℚ) * (30 / 100)
        else 0)
     else 0)
    = (((qt.map pyLower).toFinset ∩ (tags.map pyLower).toFinset).card : ℚ)
        / (qt.length : ℚ) * (30 / 100) := by
  split_ifs with h1 h2
  · rfl
  · rw [not_ne_iff.mp h2]
    simp
  · rcases not_and_or.mp h1 with h | h
    · rw [not_ne_iff.mp h]
      simp
    · rw [not_ne_iff.mp h]
      simp

lemma calculate_relevance_eq (f : SoloditFinding) (d : String) (cs : Option String)
    (qt : List String) :
    calculate_relevance f d cs qt =
      min (keywordComponent f d + tagComponent f qt + protocolComponent f d
        + qualityBonus f + rarityBonus f) 1 := by
  simp only [calculate_relevance, keywordComponent, tagComponent, protocolComponent,
    qualityBonus, rarityBonus, matched_query_keywords, guard_ratio_eq, guard_tag_eq]

lemma keywordComponent_bounds (f : SoloditFinding) (d : String) :
    0 ≤ keywordComponent f d ∧ keywordComponent f d ≤ 35 / 100 := by
  unfold keywordComponent
  refine ⟨by positivity, ?_⟩
  by_cases hQ : (extract_keywords d).length = 0
  · rw [hQ]
    norm_num
  · have hpos : (0 : ℚ) < ((extract_keywords d).length : ℚ) := by
      exact_mod_cast Nat.pos_of_ne_zero hQ
    have hle : ((matched_query_keywords d f).length : ℚ) ≤ ((extract_keywords d).length : ℚ) := by
      exact_mod_cast List.length_filter_le _ _
    have hr : ((matched_query_keywords d f).length : ℚ) / ((extract_keywords d).length : ℚ) ≤ 1 :=
      (div_le_one hpos).mpr hle
    calc ((matched_query_keywords d f).length : ℚ) / ((extract_keywords d).length : ℚ) * (35 / 100)
        ≤ 1 * (35 / 100) := mul_le_mul_of_nonneg_right hr (by norm_num)
      _ = 35 / 100 := one_mul _

lemma tagComponent_bounds (f : SoloditFinding) (qt : List String) :
    0 ≤ tagComponent f qt ∧ tagComponent f qt ≤ 30 / 100 := by
  unfold tagComponent
  refine ⟨by positivity, ?_⟩
  by_cases hQ : qt.length = 0
  · rw [hQ]
    norm_num
  · have hpos : (0 : ℚ) < (qt.length : ℚ) := by exact_mod_cast Nat.pos_of_ne_zero hQ
    have hcard : ((qt.map pyLower).toFinset ∩ (f.tags.map pyLower).toFinset).card ≤ qt.length := by
      refine le_trans (Finset.card_le_card Finset.inter_subset_left) ?_
      simpa using List.toFinset_card_le (qt.map pyLower)
    have hr : (((qt.map pyLower).toFinset ∩ (f.tags.map pyLower).toFinset).card : ℚ)
        / (qt.length : ℚ) ≤ 1 := (div_le_one hpos).mpr (by exact_mod_cast hcard)
    calc (((qt.map pyLower).toFinset ∩ (f.tags.map pyLower).toFinset).card : ℚ)
          / (qt.length : ℚ) * (30 / 100)
        ≤ 1 * (30 / 100) := mul_le_mul_of_nonneg_right hr (by norm_num)
      _ = 30 / 100 := one_mul _

lemma protocolComponent_bounds (f : SoloditFinding) (d : String) :
    0 ≤ protocolComponent f d ∧ protocolComponent f d ≤ 15 / 100 := by
  unfold protocolComponent
  split_ifs <;> norm_num

lemma scaled_bonus_bounds (q : ℚ) (h0 : 0 ≤ q) (h5 : q ≤ 5) :
    0 ≤ q / 5 * (10 / 100) ∧ q / 5 * (10 / 100) ≤ 10 / 100 := by
  constructor
  · positivity
  · have hr : q / 5 ≤ 1 := (div_le_one (by norm_num)).mpr h5
    calc q / 5 * (10 / 100) ≤ 1 * (10 / 100) := mul_le_mul_of_nonneg_right hr (by norm_num)
      _ = 10 / 100 := one_mul _

/-- C1: for quality and rarity scores in [0,5], the relevance score equals
`min 1` of the sum of the five components (keyword overlap capped at 0.35,
tag overlap capped at 0.30, protocol-type match worth at most 0.15, quality
bonus `quality/5*0.10`, rarity bonus `rarity/5*0.10`) and lies in [0,1]. -/
theorem claim1_relevance_in_range (f : SoloditFinding) (d : String) (cs : Option String)
    (qt : List String) (hq0 : 0 ≤ f.quality_score) (hq5 : f.quality_score ≤ 5)
    (hr0 : 0 ≤ f.rarity_score) (hr5 : f.rarity_score ≤ 5) :
    calculate_relevance f d cs qt
        = min 1 (keywordComponent f d + tagComponent f qt + protocolComponent f d
            + qualityBonus f + rarityBonus f)
      ∧ 0 ≤ calculate_relevance f d cs qt
      ∧ calculate_relevance f d cs qt ≤ 1
      ∧ keywordComponent f d ≤ 35 / 100
      ∧ tagComponent f qt ≤ 30 / 100
      ∧ protocolComponent f d ≤ 15 / 100
      ∧ qualityBonus f ≤ 10 / 100
      ∧ rarityBonus f ≤ 10 / 100 := by
  have heq := calculate_relevance_eq f d cs qt
  have hkw := keywordComponent_bounds f d
  have htag := tagComponent_bounds f qt
  have hpro := protocolComponent_bounds f d
  have hqb : 0 ≤ qualityBonus f ∧ qualityBonus f ≤ 10 / 100 :=
    scaled_bonus_bounds f.quality_score hq0 hq5
  have hrb : 0 ≤ rarityBonus f ∧ rarityBonus f ≤ 10 / 100 :=
    scaled_bonus_bounds f.rarity_score hr0 hr5
  refine ⟨by rw [heq, min_comm], ?_, ?_, hkw.2, htag.2, hpro.2, hqb.2, hrb.2⟩
  · rw [heq]
    exact le_min (by linarith [hkw.1, htag.1, hpro.1, hqb.1, hrb.1]) (by norm_num)
  · rw [heq]
    exact min_le_right _ _

/-- Concrete finding evaluated in the witness of C1. -/
def findingW : SoloditFinding :=
  ⟨"id-1", "slug-1", "Reentrancy in withdraw", "reentrancy attack on withdraw defi pool",
    none, .HIGH, 4, 3, none, some "Cyfrin", some "DeFi Lending", 2, none, ["Reentrancy"], []⟩

/-- Witness for C1 at a concrete finding and query. -/
theorem claim1_witness :
    0 ≤ calculate_relevance findingW "reentrancy in withdraw" none ["Reentrancy"] ∧
    calculate_relevance findingW "reentrancy in withdraw" none ["Reentrancy"] ≤ 1 :=
  ⟨(claim1_relevance_in_range findingW "reentrancy in withdraw" none ["Reentrancy"]
      (by norm_num [findingW]) (by norm_num [findingW]) (by norm_num [findingW])
      (by norm_num [findingW])).2.1,
   (claim1_relevance_in_range findingW "reentrancy in withdraw" none ["Reentrancy"]
      (by norm_num [findingW]) (by norm_num [findingW]) (by norm_num [findingW])
      (by norm_num [findingW])).2.2.1⟩

lemma extract_keywords_nodup (d : String) : (extract_keywords d).Nodup := by
  simp only [extract_keywords]
  exact dedupFirst_nodup _

lemma ratio_mono (a b L c : ℚ) (hc : 0 ≤ c) (hL : 0 ≤ L) (hab : a ≤ b) :
    a / L * c ≤ b / L * c := by
  rcases eq_or_lt_of_le hL with h | h
  · rw [← h]
    simp
  · exact mul_le_mul_of_nonneg_right ((div_le_div_iff_of_pos_right h).mpr hab) hc

/-- C6: holding the description, tags, protocol name and quality/rarity
scores fixed, the relevance score is monotone in the set of query keywords
matched by the finding's content: if `fB`'s content matches a superset of
the keywords matched by `fA`'s content, then `fB` scores at least `fA`. -/
theorem claim6_monotone_in_matched (fA fB : SoloditFinding) (d : String) (cs : Option String)
    (qt : List String)
    (htags : fA.tags = fB.tags) (hproto : fA.protocol_name = fB.protocol_name)
    (hq : fA.quality_score = fB.quality_score) (hr : fA.rarity_score = fB.rarity_score)
    (hsub : ∀ k ∈ matched_query_keywords d fA, k ∈ matched_query_keywords d fB) :
    calculate_relevance fA d cs qt ≤ calculate_relevance fB d cs qt := by
  rw [calculate_relevance_eq, calculate_relevance_eq]
  have h2 : tagComponent fA qt = tagComponent fB qt := by
    unfold tagComponent
    rw [htags]
  have h3 : protocolComponent fA d = protocolComponent fB d := by
    unfold protocolComponent
    rw [hproto]
  have h4 : qualityBonus fA = qualityBonus fB := by
    unfold qualityBonus
    rw [hq]
  have h5 : rarityBonus fA = rarityBonus fB := by
    unfold rarityBonus
    rw [hr]
  have hnodA : (matched_query_keywords d fA).Nodup :=
    (extract_keywords_nodup d).filter _
  have hsub2 : matched_query_keywords d fA ⊆ matched_query_keywords d fB :=
    fun a ha => hsub a ha
  have hlen : (matched_query_keywords d fA).length ≤ (matched_query_keywords d fB).length :=
    (hnodA.subperm hsub2).length_le
  have hAB : ((matched_query_keywords d fA).length : ℚ)
      ≤ ((matched_query_keywords d fB).length : ℚ) := by exact_mod_cast hlen
  have h1 : keywordComponent fA d ≤ keywordComponent fB d := by
    unfold keywordComponent
    refine ratio_mono _ _ _ _ (by norm_num) ?_ hAB
    exact Nat.cast_nonneg _
  refine min_le_min ?_ le_rfl
  rw [h2, h3, h4, h5]
  linarith [h1]

/-- A second concrete finding, identical to `findingW` except for its
content, matching a superset of keywords; evaluated in the witness of C6. -/
def findingW2 : SoloditFinding :=
  ⟨"id-1", "slug-1", "Reentrancy in withdraw", "",
    none, .HIGH, 4, 3, none, some "Cyfrin", some "DeFi Lending", 2, none, ["Reentrancy"], []⟩

/-- Witness for C6 at concrete findings differing only in content. -/
theorem claim6_witness :
    calculate_relevance findingW2 "reentrancy in withdraw" none ["Reentrancy"] ≤
      calculate_relevance findingW "reentrancy in withdraw" none ["Reentrancy"] :=
  claim6_monotone_in_matched findingW2 findingW "reentrancy in withdraw" none ["Reentrancy"]
    rfl rfl rfl rfl (by decide)

/-- Value of the `Retry-After` header on a 429 response: either a string
that parses as a Python `int`, or a malformed one. -/
inductive HeaderVal
  | int (n : Int)
  | malformed
deriving DecidableEq

/-- What one iteration of the `for attempt in range(MAX_RETRIES)` loop of
`SoloditClient._make_request` observes from the network: a response with a
status code (and its optional `Retry-After` header), a
`requests.exceptions.Timeout`, or another `requests.exceptions.RequestException`. -/
inductive AttemptEvent
  | response (status : Nat) (retryAfter : Option HeaderVal)
  | timeout
  | transportError
deriving DecidableEq

/-- How `SoloditClient._make_request` terminates, by raise site:
`ok` is a 2xx return; `authError` is the `SoloditAPIError` raised on
401/403 (uncaught by the handlers, hence no retry); `requestFailed` is the
`SoloditAPIError` raised when the `RequestException` handler runs out of
retries (this covers the third 429, whose `raise_for_status` throws
`HTTPError`); `timedOut` is the `SoloditAPIError` of the timeout handler;
`maxRetriesExceeded` is the raise after the loop; `valueError` is the
uncaught `ValueError` from `int()` on a malformed `Retry-After` header or
from `time.sleep` on a negative one. -/
inductive Outcome
  | ok
  | authError (status : Nat)
  | requestFailed
  | timedOut
  | maxRetriesExceeded
  | valueError
deriving DecidableEq

/-- Observable result of a `_make_request` run: how it ended, how many
network calls it made, and the sleeps it performed (seconds), in order. -/
structure RunResult where
  outcome : Outcome
  calls : Nat
  sleeps : List ℚ
deriving DecidableEq

/-- `MAX_RETRIES` (`scripts/solodit_client.py`, line 34). -/
def MAX_RETRIES : Nat := 3

/-- Python `int(response.headers.get("Retry-After", 2))`: default 2 when
the header is absent, `ValueError` when present but not parseable. -/
def pyIntOfHeader : Option HeaderVal → Except Unit Int
  | none => .ok 2
  | some (.int n) => .ok n
  | some .malformed => .error ()

/-- The `for attempt in range(MAX_RETRIES)` loop of
`SoloditClient._make_request` (`scripts/solodit_client.py`, lines 204-246).
`ev` gives the event of each attempt, `attempt` is the loop counter, and
`fuel` (equal to `MAX_RETRIES - attempt` at every call) drives the
recursion; `fuel = 0` is the post-loop `raise SoloditAPIError("Max retries
exceeded")`. A 429 first parses `Retry-After` (possibly raising
`ValueError`); on a non-final attempt it sleeps that value (negative values
make `time.sleep` raise `ValueError`) and retries, while on the final
attempt it falls through to `raise_for_status`, whose `HTTPError` the
`RequestException` handler turns into the final `SoloditAPIError`.
401/403 raise a `SoloditAPIError` that no handler catches. Other 4xx/5xx
raise `HTTPError`; they and timeouts/transport errors sleep
`0.5 * (attempt + 1)` and retry, or raise on the final attempt. -/
def makeRequestLoop (ev : Nat → AttemptEvent) : Nat → Nat → RunResult
  | _, 0 => ⟨.maxRetriesExceeded, 0, []⟩
  | attempt, fuel + 1 =>
    match ev attempt with
    | .response status hdr =>
      if status = 429 then
        match pyIntOfHeader hdr with
        | .error _ => ⟨.valueError, 1, []⟩
        | .ok ra =>
          if attempt < MAX_RETRIES - 1 then
            if ra < 0 then ⟨.valueError, 1, []⟩
            else
              let r := makeRequestLoop ev (attempt + 1) fuel
              ⟨r.outcome, r.calls + 1, (ra : ℚ) :: r.sleeps⟩
          else ⟨.requestFailed, 1, []⟩
      else if status = 401 ∨ status = 403 then ⟨.authError status, 1, []⟩
      else if 400 ≤ status ∧ status < 600 then
        if attempt < MAX_RETRIES - 1 then
          let r := makeRequestLoop ev (attempt + 1) fuel
          ⟨r.outcome, r.calls + 1, (1 / 2 * ((attempt : ℚ) + 1)) :: r.sleeps⟩
        else ⟨.requestFailed, 1, []⟩
      else ⟨.ok, 1, []⟩
    | .timeout =>
      if attempt < MAX_RETRIES - 1 then
        let r := makeRequestLoop ev (attempt + 1) fuel
        ⟨r.outcome, r.calls + 1, (1 / 2 * ((attempt : ℚ) + 1)) :: r.sleeps⟩
      else ⟨.timedOut, 1, []⟩
    | .transportError =>
      if attempt < MAX_RETRIES - 1 then
        let r := makeRequestLoop ev (attempt + 1) fuel
        ⟨r.outcome, r.calls + 1, (1 / 2 * ((attempt : ℚ) + 1)) :: r.sleeps⟩
      else ⟨.requestFailed, 1, []⟩

/-- `SoloditClient._make_request` as a whole: run the loop from attempt 0
with the full retry budget. -/
def make_request (ev : Nat → AttemptEvent) : RunResult :=
  makeRequestLoop ev 0 MAX_RETRIES

lemma make_request_429_run (hdr : Nat → Option HeaderVal) (ra : Nat → Int)
    (hok : ∀ n, pyIntOfHeader (hdr n) = .ok (ra n)) (hnn : ∀ n, 0 ≤ ra n) :
    make_request (fun n => .response 429 (hdr n))
      = ⟨.requestFailed, 3, [(ra 0 : ℚ), (ra 1 : ℚ)]⟩ := by
  have h0 := hok 0
  have h1 := hok 1
  have h2 := hok 2
  have n0 := not_lt.mpr (hnn 0)
  have n1 := not_lt.mpr (hnn 1)
  simp [make_request, MAX_RETRIES, makeRequestLoop, h0, h1, h2, n0, n1]

/-- C2: when every attempt yields HTTP 429 with a parseable, non-negative
`Retry-After` value, the client makes exactly 3 network calls, sleeps
before each of the two retries for the per-attempt `Retry-After` value
(which defaults to 2 when the header is absent), and the run ends in the
`SoloditAPIError` raised after the final 429. -/
theorem claim2_three_attempts_on_429 (hdr : Nat → Option HeaderVal) (ra : Nat → Int)
    (hok : ∀ n, pyIntOfHeader (hdr n) = .ok (ra n)) (hnn : ∀ n, 0 ≤ ra n) :
    make_request (fun n => .response 429 (hdr n))
        = ⟨.requestFailed, 3, [(ra 0 : ℚ), (ra 1 : ℚ)]⟩
      ∧ pyIntOfHeader none = .ok 2 :=
  ⟨make_request_429_run hdr ra hok hnn, rfl⟩

/-- Witness for C2: all three attempts 429 with the header absent; the
default wait of 2 seconds is used before each retry. -/
theorem claim2_witness :
    make_request (fun _ => .response 429 none) = ⟨.requestFailed, 3, [2, 2]⟩
      ∧ pyIntOfHeader none = .ok 2 :=
  claim2_three_attempts_on_429 (fun _ => none) (fun _ => 2) (fun _ => rfl) (fun _ => (by decide : (0 : Int) ≤ 2))

/-- C3: a 401 or 403 on the first attempt raises the authentication
`SoloditAPIError` immediately: exactly one network call, no sleeps,
regardless of what later attempts would have returned. -/
theorem claim3_auth_error_no_retry (ev : Nat → AttemptEvent) (status : Nat)
    (hdr : Option HeaderVal) (h0 : ev 0 = .response status hdr)
    (hs : status = 401 ∨ status = 403) :
    make_request ev = ⟨.authError status, 1, []⟩ := by
  rcases hs with rfl | rfl <;>
    simp [make_request, MAX_RETRIES, makeRequestLoop, h0]

/-- Witness for C3: a 401 on the first attempt (with 200s available later)
makes exactly one call. -/
theorem claim3_witness :
    make_request (fun n => if n = 0 then .response 401 none else .response 200 none)
      = ⟨.authError 401, 1, []⟩ :=
  claim3_auth_error_no_retry _ 401 none rfl (Or.inl rfl)

/-- C7 counterexample: on a 429 whose `Retry-After` header is present but
not parseable as an integer, the client does not fall back to the 2-second
default: `int()` raises an uncaught `ValueError`, so the run ends after one
call with no sleep, a different error than the claim allows. -/
theorem claim7_counterexample :
    make_request (fun _ => .response 429 (some .malformed)) =
      ⟨.valueError, 1, []⟩ := by decide

/-- C7 (amended): on a 429 response the wait before the next attempt is the
`Retry-After` header parsed as an integer, defaulting to 2 seconds only
when the header is absent; when the header is present but not parseable,
`int()` raises an uncaught `ValueError` that propagates to the caller with
no sleep and no retry. -/
theorem claim7_retry_after_parsing (hdr : Option HeaderVal) (ra : Int)
    (hok : pyIntOfHeader hdr = .ok ra) (hnn : 0 ≤ ra) :
    (make_request (fun _ => .response 429 hdr)).sleeps = [(ra : ℚ), (ra : ℚ)]
      ∧ pyIntOfHeader none = .ok 2
      ∧ ∀ ev : Nat → AttemptEvent, ev 0 = .response 429 (some .malformed) →
          make_request ev = ⟨.valueError, 1, []⟩ := by
  refine ⟨?_, rfl, ?_⟩
  · rw [make_request_429_run (fun _ => hdr) (fun _ => ra) (fun _ => hok) (fun _ => hnn)]
  · intro ev h0
    simp [make_request, MAX_RETRIES, makeRequestLoop, h0, pyIntOfHeader]

/-- Witness for C7 (amended) at an absent header: the default wait 2 is
used before both retries. -/
theorem claim7_witness :
    (make_request (fun _ => .response 429 none)).sleeps = [2, 2] :=
  (claim7_retry_after_parsing none 2 rfl (by decide)).1

/-- One entry of the client's in-memory cache `self._cache`
(`scripts/solodit_client.py`, line 146): a key mapped to a
`(result, timestamp)` pair. The key and value types are parameters
(the source stores strings and arbitrary results). -/
structure CacheEntry (K V : Type) where
  key : K
  val : V
  ts : ℚ
deriving DecidableEq

/-- The cache dict, as an association list in dict (insertion) order. -/
abbrev Cache (K V : Type) := List (CacheEntry K V)

/-- The keys of the cache, in dict order. -/
def cacheKeys {K V : Type} (c : Cache K V) : List K := c.map (fun e => e.key)

/-- Python dict assignment `self._cache[key] = (result, t)`: replace in
place when the key exists, append otherwise. -/
def dictSet {K V : Type} [DecidableEq K] (c : Cache K V) (k : K) (v : V) (t : ℚ) :
    Cache K V :=
  if k ∈ cacheKeys c then
    c.map (fun e => if e.key = k then ⟨k, v, t⟩ else e)
  else c ++ [⟨k, v, t⟩]

/-- Ordering of cache entries by insertion timestamp: the sort key
`lambda x: x[1][1]` of `SoloditClient._set_cached`. -/
def tsle {K V : Type} (a b : CacheEntry K V) : Prop := a.ts ≤ b.ts

instance {K V : Type} : DecidableRel (@tsle K V) :=
  fun a b => inferInstanceAs (Decidable (a.ts ≤ b.ts))

instance {K V : Type} : IsTotal (CacheEntry K V) tsle :=
  ⟨fun a b => le_total a.ts b.ts⟩

instance {K V : Type} : IsTrans (CacheEntry K V) tsle :=
  ⟨fun _ _ _ h1 h2 => le_trans h1 h2⟩

/-- The eviction step of `SoloditClient._set_cached`
(`scripts/solodit_client.py`, lines 172-177): sort the entries by
timestamp (Python's `sorted` is stable, as is insertion sort) and delete
the keys of the first 100 from the dict. -/
def evictOldest {K V : Type} [DecidableEq K] (c : Cache K V) : Cache K V :=
  let sortedEntries := List.insertionSort tsle c
  let evictKeys := (sortedEntries.take 100).map (fun e => e.key)
  c.filter (fun e => decide (e.key ∉ evictKeys))

/-- `SoloditClient._set_cached` (`scripts/solodit_client.py`, lines
168-177): store `(v, t)` under `k`, then, if the dict now holds more than
1000 entries, evict the 100 oldest. -/
def set_cached {K V : Type} [DecidableEq K] (c : Cache K V) (k : K) (v : V) (t : ℚ) :
    Cache K V :=
  let c1 := dictSet c k v t
  if 1000 < c1.length then evictOldest c1 else c1

/-- `SoloditClient._get_cached` (`scripts/solodit_client.py`, lines
154-166): absent key gives `None`; an entry older than `ttl` (strictly:
`t - timestamp > cache_ttl`) is deleted and gives `None`; otherwise the
stored value is returned. The returned pair is (result, cache state after
the call). -/
def get_cached {K V : Type} [DecidableEq K] (c : Cache K V) (k : K) (t ttl : ℚ) :
    Option V × Cache K V :=
  match c.find? (fun e => decide (e.key = k)) with
  | none => (none, c)
  | some e =>
    if ttl < t - e.ts then (none, c.eraseP (fun x => decide (x.key = k)))
    else (some e.val, c)

lemma cacheKeys_append_singleton {K V : Type} (c : Cache K V) (z : CacheEntry K V) :
    cacheKeys (c ++ [z]) = cacheKeys c ++ [z.key] := by
  simp [cacheKeys]

lemma nodup_keys_append {K V : Type} (c : Cache K V) (z : CacheEntry K V)
    (hnod : (cacheKeys c).Nodup) (hz : z.key ∉ cacheKeys c) :
    (cacheKeys (c ++ [z])).Nodup := by
  rw [cacheKeys_append_singleton]
  refine List.Nodup.append hnod (List.nodup_singleton _) ?_
  intro a ha hb
  rw [List.mem_singleton] at hb
  exact hz (hb ▸ ha)

lemma cacheKeys_dictSet_mem {K V : Type} [DecidableEq K] (c : Cache K V) (k : K) (v : V)
    (t : ℚ) (hk : k ∈ cacheKeys c) : cacheKeys (dictSet c k v t) = cacheKeys c := by
  rw [dictSet, if_pos hk]
  simp only [cacheKeys, List.map_map]
  refine List.map_congr_left ?_
  intro e _
  by_cases he : e.key = k
  · simp [Function.comp, he]
  · simp [Function.comp, he]

lemma length_dictSet_mem {K V : Type} [DecidableEq K] (c : Cache K V) (k : K) (v : V)
    (t : ℚ) (hk : k ∈ cacheKeys c) : (dictSet c k v t).length = c.length := by
  simp [dictSet, if_pos hk]

lemma dictSet_not_mem {K V : Type} [DecidableEq K] (c : Cache K V) (k : K) (v : V)
    (t : ℚ) (hk : k ∉ cacheKeys c) : dictSet c k v t = c ++ [⟨k, v, t⟩] := by
  simp [dictSet, hk]

lemma orderedInsert_append_last {K V : Type} (a z : CacheEntry K V)
    (s : List (CacheEntry K V)) (h : tsle a z) :
    List.orderedInsert tsle a (s ++ [z]) = List.orderedInsert tsle a s ++ [z] := by
  induction s with
  | nil => simp [List.orderedInsert, if_pos h]
  | cons b s ih =>
    rw [List.cons_append]
    by_cases hb : tsle a b
    · rw [List.orderedInsert_of_le tsle (s ++ [z]) hb, List.orderedInsert_of_le tsle s hb]
      simp
    · have e1 : List.orderedInsert tsle a (b :: (s ++ [z]))
          = b :: List.orderedInsert tsle a (s ++ [z]) := by
        simp only [List.orderedInsert, if_neg hb]
      have e2 : List.orderedInsert tsle a (b :: s) = b :: List.orderedInsert tsle a s := by
        simp only [List.orderedInsert, if_neg hb]
      rw [e1, e2, ih, List.cons_append]

lemma insertionSort_append_last {K V : Type} (l : List (CacheEntry K V))
    (z : CacheEntry K V) (h : ∀ e ∈ l, tsle e z) :
    List.insertionSort tsle (l ++ [z]) = List.insertionSort tsle l ++ [z] := by
  induction l with
  | nil => simp
  | cons a l ih =>
    rw [List.cons_append]
    simp only [List.insertionSort]
    rw [ih (fun e he => h e (List.mem_cons_of_mem a he))]
    exact orderedInsert_append_last a z _ (h a (List.mem_cons_self a l))

lemma evictOldest_spec {K V : Type} [DecidableEq K] (c : Cache K V)
    (hnod : (cacheKeys c).Nodup) (hlen : 100 ≤ c.length) :
    (evictOldest c).length = c.length - 100
    ∧ ∀ e ∈ c, e ∉ evictOldest c → ∀ e2 ∈ evictOldest c, e.ts ≤ e2.ts := by
  classical
  have hperm : List.Perm (List.insertionSort tsle c) c := List.perm_insertionSort tsle c
  set s := List.insertionSort tsle c with hs
  set ek := (s.take 100).map (fun e => e.key) with hek
  have hkeysperm : List.Perm (cacheKeys s) (cacheKeys c) := hperm.map _
  have hnods : (cacheKeys s).Nodup := hkeysperm.symm.nodup hnod
  have hslen : s.length = c.length := hperm.length_eq
  have hek_eq : ek = (cacheKeys s).take 100 := by
    rw [hek, cacheKeys, List.map_take]
  have hek_nodup : ek.Nodup := by
    rw [hek_eq]
    exact (List.take_sublist _ _).nodup hnods
  have hek_sub : ∀ x ∈ ek, x ∈ cacheKeys c := by
    intro x hx
    rw [hek_eq] at hx
    exact hkeysperm.mem_iff.mp ((List.take_sublist _ _).subset hx)
  have hek_len : ek.length = 100 := by
    rw [hek_eq, List.length_take]
    have : (cacheKeys s).length = c.length := by
      rw [cacheKeys, List.length_map, hslen]
    omega
  have hev : evictOldest c = c.filter (fun e => decide (e.key ∉ ek)) := by
    rw [evictOldest]
  have hcount : (c.filter (fun e => decide (e.key ∈ ek))).length = 100 := by
    have hmapfil : (cacheKeys c).filter (fun x => decide (x ∈ ek))
        = cacheKeys (c.filter (fun e => decide (e.key ∈ ek))) := by
      rw [cacheKeys, cacheKeys]
      simpa [Function.comp] using
        List.filter_map (p := fun x => decide (x ∈ ek)) (fun e : CacheEntry K V => e.key) c
    have hpermek : List.Perm ((cacheKeys c).filter (fun x => decide (x ∈ ek))) ek := by
      refine (List.perm_ext_iff_of_nodup (hnod.filter _) hek_nodup).mpr ?_
      intro a
      simp only [List.mem_filter, decide_eq_true_eq]
      exact ⟨fun h => h.2, fun h => ⟨hek_sub a h, h⟩⟩
    have h1 : ((cacheKeys c).filter (fun x => decide (x ∈ ek))).length = 100 := by
      rw [hpermek.length_eq, hek_len]
    calc (c.filter (fun e => decide (e.key ∈ ek))).length
        = (cacheKeys (c.filter (fun e => decide (e.key ∈ ek)))).length := by
          rw [cacheKeys, List.length_map]
      _ = 100 := by rw [← hmapfil, h1]
  constructor
  · rw [hev]
    have hsplit := List.length_eq_length_filter_add (l := c) (fun e => decide (e.key ∈ ek))
    have halign : c.filter (fun e => !(decide (e.key ∈ ek)))
        = c.filter (fun e => decide (e.key ∉ ek)) := by
      simp only [decide_not]
    rw [← halign]
    omega
  · intro e he hne e2 he2
    rw [hev] at hne he2
    have heke : e.key ∈ ek := by
      by_contra hcon
      exact hne (List.mem_filter.mpr ⟨he, by simpa using hcon⟩)
    have he2c : e2 ∈ c := (List.mem_filter.mp he2).1
    have he2k : e2.key ∉ ek := by
      have := (List.mem_filter.mp he2).2
      simpa using this
    rw [hek] at heke
    obtain ⟨e', he', hkey⟩ := List.mem_map.mp heke
    have he'c : e' ∈ c := hperm.subset ((List.take_sublist _ _).subset he')
    have hee' : e' = e := by
      have hinj := List.inj_on_of_nodup_map (f := fun e : CacheEntry K V => e.key)
        (l := c) hnod
      exact hinj he'c he hkey
    have he2s : e2 ∈ s := hperm.mem_iff.mpr he2c
    have he2drop : e2 ∈ s.drop 100 := by
      have hsplitmem : e2 ∈ s.take 100 ++ s.drop 100 := by
        rw [List.take_append_drop]
        exact he2s
      rcases List.mem_append.mp hsplitmem with h | h
      · exact absurd (hek ▸ List.mem_map_of_mem _ h) he2k
      · exact h
    have hsorted : List.Pairwise tsle s := by
      rw [hs]
      exact List.sorted_insertionSort tsle c
    have hpw : ∀ a ∈ s.take 100, ∀ b ∈ s.drop 100, tsle a b := by
      have : List.Pairwise tsle (s.take 100 ++ s.drop 100) := by
        rw [List.take_append_drop]
        exact hsorted
      exact (List.pairwise_append.mp this).2.2
    exact hpw e (hee' ▸ he') e2 he2drop

lemma evict_full_append {K V : Type} [DecidableEq K] (c : Cache K V) (z : CacheEntry K V)
    (hnod : (cacheKeys (c ++ [z])).Nodup) (hts : ∀ e ∈ c, e.ts ≤ z.ts)
    (hlen : 100 ≤ c.length) :
    evictOldest (c ++ [z]) =
      c.filter (fun e => decide (e.key ∉
        ((List.insertionSort tsle c).take 100).map (fun e => e.key))) ++ [z] := by
  have hsort_eq : List.insertionSort tsle (c ++ [z]) = List.insertionSort tsle c ++ [z] :=
    insertionSort_append_last c z (fun e he => hts e he)
  have hslen : (List.insertionSort tsle c).length = c.length :=
    (List.perm_insertionSort tsle c).length_eq
  have htake : (List.insertionSort tsle (c ++ [z])).take 100
      = (List.insertionSort tsle c).take 100 := by
    rw [hsort_eq]
    exact List.take_append_of_le_length (by omega)
  rw [evictOldest, htake, List.filter_append]
  have hzkey : z.key ∉ cacheKeys c := by
    rw [cacheKeys_append_singleton] at hnod
    have hdisj := (List.nodup_append.mp hnod).2.2
    intro hmem
    exact hdisj hmem (List.mem_singleton_self _)
  have hznot : z.key ∉ ((List.insertionSort tsle c).take 100).map
      (fun e => e.key) := by
    intro hmem
    obtain ⟨e', he', hkey⟩ := List.mem_map.mp hmem
    have he'c : e' ∈ c :=
      (List.perm_insertionSort tsle c).subset ((List.take_sublist _ _).subset he')
    exact hzkey (hkey ▸ List.mem_map_of_mem _ he'c)
  have hznot2 : z.key ∉ List.take 100 (List.map (fun e => e.key)
      (List.insertionSort tsle c)) := by
    rw [← List.map_take]
    exact hznot
  congr 1
  simp [hznot2]

lemma set_cached_length_le {K V : Type} [DecidableEq K] (c : Cache K V) (k : K) (v : V)
    (t : ℚ) (hnod : (cacheKeys c).Nodup) (hlen : c.length ≤ 1000) :
    (set_cached c k v t).length ≤ 1000 := by
  by_cases hk : k ∈ cacheKeys c
  · have h1 : (dictSet c k v t).length = c.length := length_dictSet_mem c k v t hk
    simp only [set_cached]
    rw [if_neg (by omega)]
    omega
  · have hd := dictSet_not_mem c k v t hk
    have h1 : (dictSet c k v t).length = c.length + 1 := by
      rw [hd]
      simp
    by_cases hfull : c.length = 1000
    · have hnod1 : (cacheKeys (dictSet c k v t)).Nodup := by
        rw [hd]
        exact nodup_keys_append c _ hnod hk
      simp only [set_cached]
      rw [if_pos (by omega)]
      have hspec := (evictOldest_spec (dictSet c k v t) hnod1 (by omega)).1
      omega
    · simp only [set_cached]
      rw [if_neg (by omega)]
      omega

/-- C4: putting a new key into a cache at the maximum size (1000 entries,
with distinct keys and timestamps no newer than the put) leaves exactly
901 entries, keeps the new entry, and every evicted entry is no newer than
every retained entry; moreover any put on any cache within the size bound
keeps the size within the bound. -/
theorem claim4_eviction_on_full_put {K V : Type} [DecidableEq K] (c : Cache K V)
    (k : K) (v : V) (t : ℚ) (hlen : c.length = 1000) (hnod : (cacheKeys c).Nodup)
    (hts : ∀ e ∈ c, e.ts ≤ t) (hnew : k ∉ cacheKeys c) :
    (set_cached c k v t).length = 901
    ∧ (⟨k, v, t⟩ : CacheEntry K V) ∈ set_cached c k v t
    ∧ (∀ e ∈ dictSet c k v t, e ∉ set_cached c k v t →
        ∀ e2 ∈ set_cached c k v t, e.ts ≤ e2.ts)
    ∧ ∀ c2 : Cache K V, (cacheKeys c2).Nodup → c2.length ≤ 1000 →
        (set_cached c2 k v t).length ≤ 1000 := by
  have hd := dictSet_not_mem c k v t hnew
  have h1 : (dictSet c k v t).length = 1001 := by
    rw [hd]
    simp [hlen]
  have hnodapp : (cacheKeys (c ++ [⟨k, v, t⟩])).Nodup := nodup_keys_append c _ hnod hnew
  have hnod1 : (cacheKeys (dictSet c k v t)).Nodup := by
    rw [hd]
    exact hnodapp
  have hset : set_cached c k v t = evictOldest (dictSet c k v t) := by
    simp only [set_cached]
    rw [if_pos (by omega)]
  have hspec := evictOldest_spec (dictSet c k v t) hnod1 (by omega)
  refine ⟨?_, ?_, ?_, fun c2 hnod2 hlen2 => set_cached_length_le c2 k v t hnod2 hlen2⟩
  · rw [hset, hspec.1, h1]
  · rw [hset, hd, evict_full_append c ⟨k, v, t⟩ hnodapp (fun e he => hts e he) (by omega)]
    exact List.mem_append_right _ (List.mem_singleton_self _)
  · intro e he hne e2 he2
    rw [hset] at hne he2
    exact hspec.2 e he hne e2 he2

/-- 1000-entry cache with distinct keys and increasing timestamps,
evaluated in the witness of C4. -/
def cacheW : Cache Nat Nat := (List.range 1000).map (fun i => ⟨i, 0, (i : ℚ)⟩)

lemma cacheW_length : cacheW.length = 1000 := by
  rw [cacheW, List.length_map, List.length_range]

lemma cacheW_keys : cacheKeys cacheW = List.range 1000 := by
  rw [cacheW, cacheKeys, List.map_map]
  have hcomp : ((fun e : CacheEntry Nat Nat => e.key) ∘
      (fun i => (⟨i, 0, (i : ℚ)⟩ : CacheEntry Nat Nat))) = id := by
    funext i
    rfl
  rw [hcomp, List.map_id]

lemma cacheW_nodup : (cacheKeys cacheW).Nodup := by
  rw [cacheW_keys]
  exact List.nodup_range 1000

lemma cacheW_ts : ∀ e ∈ cacheW, e.ts ≤ 1000 := by
  intro e he
  rw [cacheW] at he
  obtain ⟨i, hi, rfl⟩ := List.mem_map.mp he
  have hi2 : i < 1000 := List.mem_range.mp hi
  show (i : ℚ) ≤ 1000
  exact_mod_cast le_of_lt (lt_of_lt_of_le hi2 (by norm_num))

lemma cacheW_newkey : 1000 ∉ cacheKeys cacheW := by
  rw [cacheW_keys]
  simp [List.mem_range]

/-- Witness for C4 at a concrete full cache. -/
theorem claim4_witness :
    (set_cached cacheW 1000 0 1000).length = 901
    ∧ (⟨1000, 0, 1000⟩ : CacheEntry Nat Nat) ∈ set_cached cacheW 1000 0 1000 :=
  ⟨(claim4_eviction_on_full_put cacheW 1000 0 1000 cacheW_length cacheW_nodup
      cacheW_ts cacheW_newkey).1,
   (claim4_eviction_on_full_put cacheW 1000 0 1000 cacheW_length cacheW_nodup
      cacheW_ts cacheW_newkey).2.1⟩

lemma find?_replace {K V : Type} [DecidableEq K] (c : Cache K V) (k : K) (v : V) (t : ℚ)
    (hk : k ∈ cacheKeys c) :
    (c.map (fun e => if e.key = k then (⟨k, v, t⟩ : CacheEntry K V) else e)).find?
      (fun e => decide (e.key = k)) = some ⟨k, v, t⟩ := by
  induction c with
  | nil => simp [cacheKeys] at hk
  | cons a c ih =>
    by_cases ha : a.key = k
    · rw [List.map_cons, if_pos ha, List.find?_cons]
      simp
    · have hk2 : k ∈ cacheKeys c := by
        simp only [cacheKeys, List.map_cons, List.mem_cons] at hk
        rcases hk with h | h
        · exact absurd h.symm ha
        · simpa [cacheKeys] using h
      rw [List.map_cons, if_neg ha, List.find?_cons]
      have hdec : decide (a.key = k) = false := by simp [ha]
      rw [hdec]
      exact ih hk2

lemma find?_none_of_key_not_mem {K V : Type} [DecidableEq K] (c : Cache K V) (k : K)
    (hk : k ∉ cacheKeys c) :
    c.find? (fun e => decide (e.key = k)) = none := by
  refine List.find?_eq_none.mpr ?_
  intro e he hp
  have h1 : e.key = k := of_decide_eq_true hp
  refine hk ?_
  rw [← h1]
  exact List.mem_map_of_mem _ he

lemma find?_set_cached {K V : Type} [DecidableEq K] (c : Cache K V) (k : K) (v : V)
    (t : ℚ) (hnod : (cacheKeys c).Nodup) (hts : ∀ e ∈ c, e.ts ≤ t)
    (hlen : c.length ≤ 1000) :
    (set_cached c k v t).find? (fun e => decide (e.key = k)) = some ⟨k, v, t⟩ := by
  by_cases hk : k ∈ cacheKeys c
  · have h1 : (dictSet c k v t).length = c.length := length_dictSet_mem c k v t hk
    have hd : dictSet c k v t = c.map (fun e => if e.key = k then ⟨k, v, t⟩ else e) := by
      rw [dictSet, if_pos hk]
    simp only [set_cached]
    rw [if_neg (by omega), hd]
    exact find?_replace c k v t hk
  · have hd := dictSet_not_mem c k v t hk
    have hfc := find?_none_of_key_not_mem c k hk
    by_cases hfull : c.length = 1000
    · have hnodapp : (cacheKeys (c ++ [⟨k, v, t⟩])).Nodup := nodup_keys_append c _ hnod hk
      have h1 : (dictSet c k v t).length = 1001 := by
        rw [hd]
        simp [hfull]
      simp only [set_cached]
      rw [if_pos (by omega), hd,
        evict_full_append c ⟨k, v, t⟩ hnodapp (fun e he => hts e he) (by omega),
        List.find?_append]
      have hfn : (c.filter (fun e => decide (e.key ∉
          ((List.insertionSort tsle c).take 100).map (fun e => e.key)))).find?
          (fun e => decide (e.key = k)) = none := by
        refine List.find?_eq_none.mpr ?_
        intro e he hp
        have hec := (List.mem_filter.mp he).1
        have h2 : e.key = k := of_decide_eq_true hp
        refine hk ?_
        rw [← h2]
        exact List.mem_map_of_mem _ hec
      rw [hfn]
      simp [List.find?]
    · have h1 : (dictSet c k v t).length = c.length + 1 := by
        rw [hd]
        simp
      simp only [set_cached]
      rw [if_neg (by omega), hd, List.find?_append, hfc]
      simp [List.find?]

lemma not_mem_keys_eraseP {K V : Type} [DecidableEq K] (c : Cache K V) (k : K)
    (hnod : (cacheKeys c).Nodup) :
    k ∉ cacheKeys (c.eraseP (fun x => decide (x.key = k))) := by
  induction c with
  | nil => simp [cacheKeys]
  | cons a c ih =>
    rw [cacheKeys, List.map_cons, List.nodup_cons] at hnod
    by_cases ha : a.key = k
    · rw [List.eraseP_cons]
      have hdec : decide (a.key = k) = true := by simp [ha]
      rw [hdec, cond_true]
      intro hm
      rw [cacheKeys] at hm
      exact hnod.1 (ha ▸ hm)
    · rw [List.eraseP_cons]
      have hdec : decide (a.key = k) = false := by simp [ha]
      rw [hdec, cond_false]
      intro hm
      rw [cacheKeys, List.map_cons, List.mem_cons] at hm
      rcases hm with h | h
      · exact ha h.symm
      · exact ih hnod.2 (by rw [cacheKeys]; exact h)

/-- C5: on a cache with distinct keys, entries no newer than the current
time and within the size bound, a get immediately after a put of the same
key returns the stored value whenever the TTL is positive; and a get of a
key whose entry has expired (age strictly greater than the TTL) returns
absent and removes the entry from the store. -/
theorem claim5_cache_get_put {K V : Type} [DecidableEq K] (c : Cache K V) (k : K)
    (v : V) (t ttl : ℚ) (hnod : (cacheKeys c).Nodup) (hts : ∀ e ∈ c, e.ts ≤ t)
    (hlen : c.length ≤ 1000) :
    (0 < ttl → (get_cached (set_cached c k v t) k t ttl).1 = some v)
    ∧ ∀ e, c.find? (fun x => decide (x.key = k)) = some e → ttl < t - e.ts →
        (get_cached c k t ttl).1 = none ∧ k ∉ cacheKeys (get_cached c k t ttl).2 := by
  constructor
  · intro httl
    have hf := find?_set_cached c k v t hnod hts hlen
    simp only [get_cached, hf]
    rw [if_neg (by
      have : t - t = 0 := by ring
      rw [this]
      linarith)]
  · intro e hfe hexp
    have h1 : get_cached c k t ttl = (none, c.eraseP (fun x => decide (x.key = k))) := by
      simp only [get_cached, hfe]
      rw [if_pos hexp]
    rw [h1]
    exact ⟨rfl, not_mem_keys_eraseP c k hnod⟩

lemma claim5_witness_ts : ∀ e ∈ ([⟨7, 9, 0⟩] : Cache Nat Nat), e.ts ≤ 400 := by
  intro e he
  rw [List.mem_singleton] at he
  rw [he]
  norm_num

lemma claim5_witness_exp : (300 : ℚ) < 400 - (⟨7, 9, 0⟩ : CacheEntry Nat Nat).ts := by
  norm_num

/-- Witness for C5 at a concrete one-entry cache: a fresh put is readable,
and a stale entry is absent. -/
theorem claim5_witness :
    (get_cached (set_cached ([⟨7, 9, 0⟩] : Cache Nat Nat) 7 42 400) 7 400 300).1 = some 42
    ∧ (get_cached ([⟨7, 9, 0⟩] : Cache Nat Nat) 7 400 300).1 = none :=
  ⟨(claim5_cache_get_put ([⟨7, 9, 0⟩] : Cache Nat Nat) 7 42 400 300 (by decide)
      claim5_witness_ts (by decide)).1 (by decide),
   ((claim5_cache_get_put ([⟨7, 9, 0⟩] : Cache Nat Nat) 7 42 400 300 (by decide)
      claim5_witness_ts (by decide)).2 ⟨7, 9, 0⟩ (by decide) claim5_witness_exp).1⟩

/-- `SearchResult` (`scripts/solodit_client.py`, lines 84-98). -/
structure SearchResult where
  findings : List SoloditFinding
  total_results : Nat
  current_page : Nat
  total_pages : Nat
  query_time_ms : ℚ
  rate_limit_remaining : Nat
  rate_limit_reset : Nat
deriving DecidableEq

/-- `PatternMatch` (`scripts/pattern_matcher.py`, lines 22-27). The
`match_reasons` list is omitted for the same reason as in
`calculate_relevance`. -/
structure PatternMatch where
  finding : SoloditFinding
  relevance_score : ℚ
deriving DecidableEq

/-- Descending relevance order used by `matches.sort(key=..., reverse=True)`
(Python's sort is stable, as is insertion sort). -/
def scoreGE (a b : PatternMatch) : Prop := b.relevance_score ≤ a.relevance_score

instance : DecidableRel scoreGE :=
  fun a b => inferInstanceAs (Decidable (b.relevance_score ≤ a.relevance_score))

/-- `PatternMatcher.find_similar_vulnerabilities`
(`scripts/pattern_matcher.py`, lines 118-190). The outbound search request
(keyword joining, severity-to-impact mapping and the `search_findings`
call) is abstracted into the `searchOutcome` parameter: `.ok` carries the
`SearchResult` of a successful call and `.error` stands for any exception
the `try` block catches, which the function turns into an empty match
list. On success each finding is scored, findings below `min_similarity`
are dropped, and the rest are sorted by relevance descending. -/
def find_similar_vulnerabilities (searchOutcome : Except String SearchResult)
    (description : String) (code_snippet : Option String)
    (min_similarity : ℚ) : List PatternMatch :=
  let inferredTags := infer_tags description code_snippet
  match searchOutcome with
  | .error _ => []
  | .ok results =>
    let matchList := results.findings.filterMap (fun f =>
      let score := calculate_relevance f description code_snippet inferredTags
      if min_similarity ≤ score then some ⟨f, score⟩ else none)
    List.insertionSort scoreGE matchList

/-- C9: whenever the underlying search raises (any exception caught by the
`except Exception` handler), `find_similar_vulnerabilities` returns the
empty match list instead of propagating the exception. -/
theorem claim9_search_failure_empty (e : String) (d : String) (cs : Option String)
    (ms : ℚ) :
    find_similar_vulnerabilities (.error e) d cs ms = [] := rfl

/-- Python's `round` on the severity mean, as the source uses it
(`round(avg)` in `PatternMatcher._avg_severity`): nearest integer, with
`.5` ties resolved to the even neighbour (CPython's documented behaviour;
the mean of small integer severities is exactly representable, so the
float computation agrees with the rational one). -/
def pyRound (x : ℚ) : Int :=
  if x - ⌊x⌋ < 1 / 2 then ⌊x⌋
  else if 1 / 2 < x - ⌊x⌋ then ⌊x⌋ + 1
  else if 2 ∣ ⌊x⌋ then ⌊x⌋ else ⌊x⌋ + 1

/-- `PatternMatcher._avg_severity` (`scripts/pattern_matcher.py`, lines
379-386): mean of the numeric severities, rounded, mapped through the dict
`{3: "HIGH", 2: "MEDIUM", 1: "LOW", 0: "GAS/INFO"}` with `.get` default
`"UNKNOWN"`. -/
def avg_severity (ml : List PatternMatch) : String :=
  if ml = [] then "N/A"
  else
    let severities := ml.map (fun m => severity_int m.finding)
    let avg : ℚ := (severities.sum : ℚ) / (severities.length : ℚ)
    if pyRound avg = 3 then "HIGH"
    else if pyRound avg = 2 then "MEDIUM"
    else if pyRound avg = 1 then "LOW"
    else if pyRound avg = 0 then "GAS/INFO"
    else "UNKNOWN"

/-- Round-half-to-even as the spec phrases it: the nearest of floor and
ceiling, ties resolved to the even one. -/
def roundHalfToEven (x : ℚ) : Int :=
  if x - ⌊x⌋ < (⌈x⌉ : ℚ) - x then ⌊x⌋
  else if (⌈x⌉ : ℚ) - x < x - ⌊x⌋ then ⌈x⌉
  else if 2 ∣ ⌊x⌋ then ⌊x⌋ else ⌈x⌉

/-- The label map of the claim: mean → round-half-to-even → 3/2/1/0 →
HIGH/MEDIUM/LOW/GAS-INFO. -/
def severityLabelOfMean (severities : List Nat) : String :=
  if roundHalfToEven ((severities.sum : ℚ) / (severities.length : ℚ)) = 3 then "HIGH"
  else if roundHalfToEven ((severities.sum : ℚ) / (severities.length : ℚ)) = 2 then "MEDIUM"
  else if roundHalfToEven ((severities.sum : ℚ) / (severities.length : ℚ)) = 1 then "LOW"
  else "GAS/INFO"

lemma pyRound_eq_roundHalfToEven (x : ℚ) : pyRound x = roundHalfToEven x := by
  rw [pyRound, roundHalfToEven]
  rcases eq_or_lt_of_le (Int.floor_le x) with hfl | hfl
  · have hceil : ⌈x⌉ = ⌊x⌋ := by
      rw [← hfl]
      exact Int.ceil_intCast _
    have h0 : x - (⌊x⌋ : ℚ) = 0 := by linarith
    have h0c : (⌈x⌉ : ℚ) - x = 0 := by
      rw [hceil]
      linarith
    rw [if_pos (by linarith), if_neg (by linarith), if_neg (by linarith)]
    split_ifs with hpar
    · rfl
    · rw [hceil]
  · have hceil : ⌈x⌉ = ⌊x⌋ + 1 := by
      have h1 := Int.ceil_le_floor_add_one x
      have h2 : ⌊x⌋ < ⌈x⌉ := Int.lt_ceil.mpr hfl
      omega
    have hcx : (⌈x⌉ : ℚ) - x = 1 - (x - ⌊x⌋) := by
      rw [hceil]
      push_cast
      ring
    rcases lt_trichotomy (x - ⌊x⌋) (1 / 2 : ℚ) with h | h | h
    · rw [if_pos h, if_pos (by rw [hcx]; linarith)]
    · rw [if_neg (by linarith), if_neg (by linarith),
        if_neg (show ¬(x - ⌊x⌋ < (⌈x⌉ : ℚ) - x) by rw [hcx]; linarith),
        if_neg (show ¬((⌈x⌉ : ℚ) - x < x - ⌊x⌋) by rw [hcx]; linarith)]
      split_ifs with hpar
      · rfl
      · rw [hceil]
    · rw [if_neg (by linarith), if_pos h,
        if_neg (show ¬(x - ⌊x⌋ < (⌈x⌉ : ℚ) - x) by rw [hcx]; linarith),
        if_pos (show (⌈x⌉ : ℚ) - x < x - ⌊x⌋ by rw [hcx]; linarith)]
      rw [hceil]

lemma pyRound_bounds (x : ℚ) (h0 : 0 ≤ x) (h3 : x ≤ 3) :
    0 ≤ pyRound x ∧ pyRound x ≤ 3 := by
  have hf0 : (0 : Int) ≤ ⌊x⌋ := Int.le_floor.mpr (by exact_mod_cast h0)
  have hf3 : ⌊x⌋ ≤ 3 := by
    have := Int.floor_le_floor h3
    simpa using this
  have hup : ∀ h12 : 1 / 2 ≤ x - ⌊x⌋, ⌊x⌋ ≤ 2 := by
    intro h12
    have hlt : (⌊x⌋ : ℚ) < 3 := by linarith
    have hlt2 : ⌊x⌋ < (3 : Int) := by exact_mod_cast hlt
    omega
  rw [pyRound]
  split_ifs with h1 h2 hpar
  · exact ⟨hf0, hf3⟩
  · have := hup (le_of_lt h2)
    omega
  · exact ⟨hf0, hf3⟩
  · have := hup (not_lt.mp h1)
    omega

lemma severity_int_le (f : SoloditFinding) : severity_int f ≤ 3 := by
  rw [severity_int]
  cases f.impact <;> simp

/-- C10: for every non-empty match list, the report's average-severity
label equals the label obtained by rounding the arithmetic mean of the
numeric severities (HIGH=3, MEDIUM=2, LOW=1, GAS=0) to the nearest integer
with half-to-even tie-breaking, mapped back through 3, 2, 1, 0; the
source's `"UNKNOWN"` default is unreachable. -/
theorem claim10_avg_severity (ml : List PatternMatch) (hne : ml ≠ []) :
    avg_severity ml
      = severityLabelOfMean (ml.map (fun m => severity_int m.finding)) := by
  have hlen : 0 < ml.length := List.length_pos.mpr hne
  have hslen : (ml.map (fun m => severity_int m.finding)).length = ml.length := by
    simp
  have hlenq : (0 : ℚ) < ((ml.map (fun m => severity_int m.finding)).length : ℚ) := by
    rw [hslen]
    exact_mod_cast hlen
  have havg0 : (0 : ℚ) ≤ ((ml.map (fun m => severity_int m.finding)).sum : ℚ)
      / ((ml.map (fun m => severity_int m.finding)).length : ℚ) := by
    positivity
  have havg3 : ((ml.map (fun m => severity_int m.finding)).sum : ℚ)
      / ((ml.map (fun m => severity_int m.finding)).length : ℚ) ≤ 3 := by
    have hsum : (ml.map (fun m => severity_int m.finding)).sum
        ≤ (ml.map (fun m => severity_int m.finding)).length * 3 := by
      have hb := List.sum_le_card_nsmul (ml.map (fun m => severity_int m.finding)) 3 ?_
      · simpa [smul_eq_mul] using hb
      · intro x hx
        obtain ⟨m, _, rfl⟩ := List.mem_map.mp hx
        exact severity_int_le m.finding
    rw [div_le_iff₀ hlenq]
    calc ((ml.map (fun m => severity_int m.finding)).sum : ℚ)
        ≤ (((ml.map (fun m => severity_int m.finding)).length * 3 : ℕ) : ℚ) := by
          exact_mod_cast hsum
      _ = 3 * ((ml.map (fun m => severity_int m.finding)).length : ℚ) := by
          push_cast
          ring
  have hb := pyRound_bounds _ havg0 havg3
  simp only [avg_severity, severityLabelOfMean, if_neg hne, ← pyRound_eq_roundHalfToEven]
  split_ifs with h3 h2 h1 h0
  · rfl
  · rfl
  · rfl
  · rfl
  · omega

/-- A MEDIUM-severity finding, used in the witness of C10. -/
def findingM : SoloditFinding :=
  ⟨"id-2", "slug-2", "Rounding issue", "rounding precision loss",
    none, .MEDIUM, 3, 2, none, none, none, 1, none, ["Rounding"], []⟩

/-- Witness for C10 at a concrete two-element match list (severities 3 and
2) whose severity mean is 5/2, a half-to-even tie rounding to 2. -/
theorem claim10_witness :
    avg_severity ([⟨findingW, 1⟩, ⟨findingM, 1⟩] : List PatternMatch)
      = severityLabelOfMean
          (([⟨findingW, 1⟩, ⟨findingM, 1⟩] : List PatternMatch).map
            (fun m => severity_int m.finding)) :=
  claim10_avg_severity ([⟨findingW, 1⟩, ⟨findingM, 1⟩] : List PatternMatch) (by simp)

end RalphSmart
